import Mathlib

/-!
Verification of the hecto-tutorial editor core: a shallow embedding of the
annotation-merging iterator (`AnnotatedStringIterator::next`), the selection
highlighter, and the document `Buffer` operations, followed by theorems
settling the specification claims.

Strings are embedded as `List Char`; byte/grapheme indices as `Nat`.
-/

set_option autoImplicit false

/-- Modelled from the spec: `AnnotationType` is an open tag set with one
reserved variant `Select` plus externally-defined syntax-class tags
(its Rust definition is not among the provided sources). -/
inductive AnnotationType where
  | Select : AnnotationType
  | SyntaxClass : Nat → AnnotationType
deriving DecidableEq, Repr

/-- Modelled from the spec: a tagged half-open range `[start, end)` over a
line's offsets (the Rust struct's fields are `annotation_type`, `start`,
`end`; `end` is a Lean keyword, rendered `endIdx`). -/
structure Annotation where
  annotation_type : AnnotationType
  start : Nat
  endIdx : Nat
deriving DecidableEq, Repr

/-- Modelled from the spec: an `AnnotatedString` owns a text buffer and a
collection of annotations referencing offsets into that text. -/
structure AnnotatedString where
  string : List Char
  annotations : List Annotation
deriving DecidableEq, Repr

/-- Output unit of the merge, from `annotatedstringpart.rs`. -/
structure AnnotatedStringPart where
  string : List Char
  annotation_types : List AnnotationType
deriving DecidableEq, Repr

/-- Boolean test for `annotation_type == AnnotationType::Select`. -/
def isSelect : AnnotationType → Bool
  | AnnotationType.Select => true
  | AnnotationType.SyntaxClass _ => false

/-- The annotations active at offset `c`: `start <= c && end > c`
(the filter at the top of `AnnotatedStringIterator::next`). -/
def activeAt (s : AnnotatedString) (c : Nat) : List Annotation :=
  s.annotations.filter (fun a => decide (a.start ≤ c) && decide (c < a.endIdx))

/-- The Select-branch loop over active annotations: for each non-Select
active annotation, `end_idx = min(end_idx, annotation.end)`. -/
def selectEndsFold (e0 : Nat) (l : List Annotation) : Nat :=
  l.foldl (fun e a => if isSelect a.annotation_type then e else min e a.endIdx) e0

/-- The Select-branch loop over all annotations: a non-Select annotation
whose `start` lies in `(c, end_idx)` lowers `end_idx` to that start. -/
def nonSelectStartsFold (c : Nat) (e0 : Nat) (l : List Annotation) : Nat :=
  l.foldl
    (fun e a =>
      if !isSelect a.annotation_type && decide (c < a.start) && decide (a.start < e) then
        a.start
      else e)
    e0

/-- The no-Select-branch loop over active annotations:
`end_idx = min(end_idx, annotation.end)`. -/
def activeEndsFold (e0 : Nat) (l : List Annotation) : Nat :=
  l.foldl (fun e a => min e a.endIdx) e0

/-- The no-Select-branch loop over all annotations, which `break`s at the
first Select annotation whose `start` lies in `(c, end_idx)`. -/
def firstSelectStartIn (c : Nat) : List Annotation → Nat → Nat
  | [], e => e
  | a :: rest, e =>
    if isSelect a.annotation_type && decide (c < a.start) && decide (a.start < e) then
      a.start
    else firstSelectStartIn c rest e

/-- The no-active-annotations loop: the nearest `start` strictly greater
than the cursor lowers `end_idx`. -/
def noActiveStartsFold (c : Nat) (e0 : Nat) (l : List Annotation) : Nat :=
  l.foldl
    (fun e a => if decide (c < a.start) && decide (a.start < e) then a.start else e)
    e0

/-- One step of `AnnotatedStringIterator::next`, returning the emitted part
together with the new cursor position (`self.current_idx` after the call),
or `none` once `current_idx >= string.len()`. -/
def nextPart (s : AnnotatedString) (c : Nat) : Option (AnnotatedStringPart × Nat) :=
  if s.string.length ≤ c then none
  else if (activeAt s c).isEmpty then
    some (⟨(s.string.drop c).take (noActiveStartsFold c s.string.length s.annotations - c),
           []⟩,
          noActiveStartsFold c s.string.length s.annotations)
  else
    match (activeAt s c).find? (fun a => isSelect a.annotation_type) with
    | some sel =>
      some (⟨(s.string.drop c).take
               (nonSelectStartsFold c
                 (selectEndsFold (min sel.endIdx s.string.length) (activeAt s c))
                 s.annotations - c),
             (activeAt s c).map (·.annotation_type)⟩,
            nonSelectStartsFold c
              (selectEndsFold (min sel.endIdx s.string.length) (activeAt s c))
              s.annotations)
    | none =>
      some (⟨(s.string.drop c).take
               (firstSelectStartIn c s.annotations
                 (activeEndsFold s.string.length (activeAt s c)) - c),
             (activeAt s c).map (·.annotation_type)⟩,
            firstSelectStartIn c s.annotations
              (activeEndsFold s.string.length (activeAt s c)))

/-- Iterating `next` to exhaustion, with explicit fuel. -/
def partsFrom (s : AnnotatedString) : Nat → Nat → List AnnotatedStringPart
  | 0, _ => []
  | fuel + 1, c =>
    match nextPart s c with
    | none => []
    | some (p, b) => p :: partsFrom s fuel b

/-- All parts produced by the iterator starting from offset 0; fuel
`string.length` suffices because every step advances the cursor. -/
def parts (s : AnnotatedString) : List AnnotatedStringPart :=
  partsFrom s s.string.length 0

/-! ### Line, Location, FileInfo, Buffer -/

/-- Location from `prelude/location.rs`. -/
structure Location where
  grapheme_idx : Nat
  line_idx : Nat
deriving DecidableEq, Repr

/-- SelectRange: an unordered pair of Locations (type alias in the prelude). -/
abbrev SelectRange : Type := Location × Location

/-- Insert at index `i`, clamped to the end (models `Vec::insert` at an
in-range index, and push-at-end for `i ≥ len`). -/
def listInsertAt {α : Type} (l : List α) (i : Nat) (a : α) : List α :=
  l.take i ++ a :: l.drop i

/-- Modelled from the spec: a `Line` owns an ordered sequence of grapheme
clusters (its Rust source is not among the provided files). Each cluster is
a list of characters. -/
structure Line where
  graphemes : List (List Char)
deriving DecidableEq, Repr

/-- Modelled from the spec: number of grapheme clusters. -/
def Line.grapheme_count (l : Line) : Nat :=
  l.graphemes.length

/-- Modelled from the spec: inserts a new single-character cluster at
grapheme index `at` (appended at the end when `at` is past the line). -/
def Line.insert_char (l : Line) (ch : Char) (i : Nat) : Line :=
  ⟨listInsertAt l.graphemes i [ch]⟩

/-- Modelled from the spec: removes the cluster at the index; no-op when
out of bounds. -/
def Line.delete (l : Line) (i : Nat) : Line :=
  ⟨l.graphemes.eraseIdx i⟩

/-- Modelled from the spec: truncate to `[0, at)` and return the tail
`[at, end)` as a new Line. -/
def Line.split (l : Line) (i : Nat) : Line × Line :=
  (⟨l.graphemes.take i⟩, ⟨l.graphemes.drop i⟩)

/-- Modelled from the spec: concatenates another line's clusters onto
this one. -/
def Line.append (l other : Line) : Line :=
  ⟨l.graphemes ++ other.graphemes⟩

/-- Modelled from the spec: literal, case-sensitive substring search over
the grapheme-indexed text starting at grapheme index `fro`, scanning
forward; returns the grapheme index of the first match. -/
def Line.search_forward (l : Line) (q : List Char) (fro : Nat) : Option Nat :=
  (List.range (l.grapheme_count + 1)).find?
    (fun i => decide (fro ≤ i) && q.isPrefixOf (l.graphemes.drop i).flatten)

/-- A line built from a string, one cluster per character (adequate for the
ASCII inputs used in the claims). -/
def Line.ofString (s : List Char) : Line :=
  ⟨s.map (fun c => [c])⟩

/-- Modelled from the spec: `FileInfo` holds an optional file path. -/
structure FileInfo where
  path : Option (List Char)
deriving DecidableEq, Repr

/-- Buffer from `buffer.rs`: lines, file metadata, dirty flag. -/
structure Buffer where
  lines : List Line
  file_info : FileInfo
  dirty : Bool
deriving DecidableEq, Repr

/-- Translation of `Buffer::height`. -/
def Buffer.height (b : Buffer) : Nat :=
  b.lines.length

/-- Translation of `Buffer::insert_char` (release semantics: the `debug_assert` is absent). -/
def Buffer.insert_char (b : Buffer) (ch : Char) (pos : Location) : Buffer :=
  if pos.line_idx = b.height then
    { b with lines := b.lines ++ [⟨[[ch]]⟩], dirty := true }
  else
    match b.lines.get? pos.line_idx with
    | some line =>
      { b with lines := b.lines.set pos.line_idx (line.insert_char ch pos.grapheme_idx),
               dirty := true }
    | none => b

/-- Translation of `Buffer::insert_char` including the `debug_assert!(at.line_idx <= height)`:
in a debug build a violated assertion aborts, modelled as `none`. -/
def Buffer.insert_char_checked (debug : Bool) (b : Buffer) (ch : Char) (pos : Location) :
    Option Buffer :=
  if debug && decide (b.height < pos.line_idx) then none
  else some (b.insert_char ch pos)

/-- Translation of `Buffer::delete`. -/
def Buffer.delete (b : Buffer) (pos : Location) : Buffer :=
  match b.lines.get? pos.line_idx with
  | none => b
  | some line =>
    if line.grapheme_count ≤ pos.grapheme_idx ∧ pos.line_idx + 1 < b.lines.length then
      match b.lines.get? (pos.line_idx + 1) with
      | some next =>
        { b with lines := (b.lines.set pos.line_idx (line.append next)).eraseIdx
                            (pos.line_idx + 1),
                 dirty := true }
      | none => b
    else if pos.grapheme_idx < line.grapheme_count then
      { b with lines := b.lines.set pos.line_idx (line.delete pos.grapheme_idx),
               dirty := true }
    else b

/-- Translation of `Buffer::insert_newline`. -/
def Buffer.insert_newline (b : Buffer) (pos : Location) : Buffer :=
  if pos.line_idx = b.height then
    { b with lines := b.lines ++ [⟨[]⟩], dirty := true }
  else
    match b.lines.get? pos.line_idx with
    | some line =>
      { b with lines := listInsertAt (b.lines.set pos.line_idx (line.split pos.grapheme_idx).1)
                          (pos.line_idx + 1) (line.split pos.grapheme_idx).2,
               dirty := true }
    | none => b

/-- The repeated single-grapheme deletion loop of `Buffer::delete_range`. -/
def Buffer.deleteN (b : Buffer) (pos : Location) : Nat → Buffer
  | 0 => b
  | n + 1 => Buffer.deleteN (b.delete pos) pos n

/-- Translation of `Buffer::delete_range`: normalize, count graphemes to delete, then
delete that many times at the normalized start. The Rust code indexes
`self.lines[...]` directly while counting; an out-of-bounds index there
panics, modelled as `none`. -/
def Buffer.delete_range (b : Buffer) (range : SelectRange) : Option Buffer :=
  let s0 := range.1
  let e0 := range.2
  let was_backward := s0.line_idx > e0.line_idx ∨
    (s0.line_idx = e0.line_idx ∧ s0.grapheme_idx > e0.grapheme_idx)
  let s := if was_backward then e0 else s0
  let e := if was_backward then s0 else e0
  if s.line_idx = e.line_idx then
    some (b.deleteN s (e.grapheme_idx - s.grapheme_idx))
  else
    match b.lines.get? s.line_idx with
    | none => none
    | some firstLine =>
      match (List.range' (s.line_idx + 1) (e.line_idx - (s.line_idx + 1))).mapM
          (fun i => (b.lines.get? i).map Line.grapheme_count) with
      | none => none
      | some interior =>
        some (b.deleteN s
          ((firstLine.grapheme_count - s.grapheme_idx) + interior.sum +
            e.grapheme_idx + (e.line_idx - s.line_idx)))

/-- Translation of `Buffer::save_to_file` (release semantics), with filesystem success
abstracted by `ioOk`; returns whether the call succeeded. With no path the
release build skips the write and returns `Ok(())`. -/
def Buffer.save_to_file (ioOk : Bool) (fi : FileInfo) : Bool :=
  match fi.path with
  | some _ => ioOk
  | none => true

/-- Translation of `Buffer::save` (release): on success the dirty flag is cleared; on an
I/O error the `?` operator returns early leaving the buffer unchanged.
Returns the resulting buffer and whether the call succeeded. -/
def Buffer.save (ioOk : Bool) (b : Buffer) : Buffer × Bool :=
  if Buffer.save_to_file ioOk b.file_info then
    ({ b with dirty := false }, true)
  else (b, false)

/-- Translation of `Buffer::save_as`: save to a fresh `FileInfo`, then adopt it and clear
the dirty flag; on an I/O error the buffer is left unchanged. -/
def Buffer.save_as (ioOk : Bool) (b : Buffer) (file_name : List Char) : Buffer × Bool :=
  if Buffer.save_to_file ioOk ⟨some file_name⟩ then
    ({ b with file_info := ⟨some file_name⟩, dirty := false }, true)
  else (b, false)

/-- Element access of a cycled list: element `i` of
`lines.iter().enumerate().cycle()` is `lines[i % len]`; `none` when the
list is empty. -/
def cycleGet {α : Type} (l : List α) (i : Nat) : Option α :=
  if l.length = 0 then none else l.get? (i % l.length)

/-- The loop body of `Buffer::search_forward`: iterate over
`cycle().skip(from.line_idx).take(len + 1)`, searching the first visited
line from `from.grapheme_idx` and every later one from column 0. -/
def searchFwdAux (lines : List Line) (q : List Char) (fro : Location) :
    Nat → Nat → Option Location
  | 0, _ => none
  | rem + 1, i =>
    match cycleGet lines (fro.line_idx + i) with
    | none => none
    | some line =>
      match line.search_forward q (if i = 0 then fro.grapheme_idx else 0) with
      | some g => some ⟨g, (fro.line_idx + i) % lines.length⟩
      | none => searchFwdAux lines q fro rem (i + 1)

/-- Translation of `Buffer::search_forward`. -/
def Buffer.search_forward (b : Buffer) (q : List Char) (fro : Location) :
    Option Location :=
  if q = [] then none
  else searchFwdAux b.lines q fro (b.lines.length + 1) 0

/-! ### Selection highlighter -/

/-- Body of `SelectHighlighter::highlight_selected_words` after the
one-shot normalization step, for the (already line-ordered) pair `s, e`. -/
def hswBody (s e : Location) (idx : Nat) (line : Line) : List Annotation :=
  let highlight_start := if s.line_idx < idx then 0 else s.grapheme_idx
  let highlight_end := if idx < e.line_idx then line.grapheme_count else e.grapheme_idx
  if s.line_idx ≤ idx ∧ idx ≤ e.line_idx then
    [⟨AnnotationType.Select, highlight_start, highlight_end⟩]
  else []

/-- The pair after the highlighter's one-shot normalization, which swaps
only when `start.line_idx > end.line_idx`: the resulting start. -/
def normalizedStart (sel : SelectRange) : Location :=
  if sel.1.line_idx > sel.2.line_idx then sel.2 else sel.1

/-- The pair after the highlighter's one-shot normalization: the resulting
end. -/
def normalizedEnd (sel : SelectRange) : Location :=
  if sel.1.line_idx > sel.2.line_idx then sel.1 else sel.2

/-- Translation of `SelectHighlighter::highlight_selected_words`: swap the pair when
`start.line_idx > end.line_idx` (and only then; the Rust method performs
the swap by mutating `self.selected_range` and recursing once), then emit
the per-line Select annotation. -/
def highlight_selected_words (sel : SelectRange) (idx : Nat) (line : Line) :
    List Annotation :=
  hswBody (normalizedStart sel) (normalizedEnd sel) idx line

/-! ### Concrete inputs for the counterexamples and witnesses -/

/-- Ten-character text with two overlapping syntax annotations; the second
starts strictly inside the first. -/
def exC1 : AnnotatedString :=
  ⟨"abcdefghij".toList,
   [⟨AnnotationType.SyntaxClass 0, 0, 10⟩, ⟨AnnotationType.SyntaxClass 1, 3, 5⟩]⟩

/-- Ten-character text with an active Select annotation and a second Select
annotation starting strictly inside it. -/
def exC2 : AnnotatedString :=
  ⟨"abcdefghij".toList,
   [⟨AnnotationType.Select, 0, 8⟩, ⟨AnnotationType.Select, 3, 5⟩]⟩

/-- Boundary as claim C2 words it: the minimum of the Select annotation's
end (clamped to the text length), the nearest end among active non-Select
annotations, and the nearest start of ANY annotation — Select included —
lying strictly between the cursor and the boundary. -/
def claimedSelectBoundary (s : AnnotatedString) (c : Nat) (sel : Annotation) : Nat :=
  ((s.annotations.filter
      (fun a =>
        decide (c < a.start) &&
          decide (a.start <
            ((activeAt s c).filter (fun a' => !isSelect a'.annotation_type)).foldl
              (fun e a' => min e a'.endIdx) (min sel.endIdx s.string.length)))).map
    (·.start)).foldl min
    (((activeAt s c).filter (fun a' => !isSelect a'.annotation_type)).foldl
      (fun e a' => min e a'.endIdx) (min sel.endIdx s.string.length))

/-- A two-character fully selected text, used as a witness input. -/
def exW : AnnotatedString :=
  ⟨"ab".toList, [⟨AnnotationType.Select, 0, 2⟩]⟩

/-- A buffer with lines `["abc", "def"]` and no path. -/
def exBufSearch : Buffer :=
  ⟨[Line.ofString "abc".toList, Line.ofString "def".toList], ⟨none⟩, false⟩

/-- A one-line dirty buffer with no file path. -/
def exBufNoPath : Buffer :=
  ⟨[Line.ofString "a".toList], ⟨none⟩, true⟩

/-- A buffer with the single line `"xabc"`. -/
def exBufX : Buffer :=
  ⟨[Line.ofString "xabc".toList], ⟨none⟩, false⟩

/-- The empty default buffer. -/
def exBufEmpty : Buffer :=
  ⟨[], ⟨none⟩, false⟩

/-- An annotated string whose annotations violate the `start < end`
invariant and extend past the text. -/
def exDeg : AnnotatedString :=
  ⟨"ab".toList,
   [⟨AnnotationType.Select, 1, 1⟩, ⟨AnnotationType.SyntaxClass 0, 5, 3⟩,
    ⟨AnnotationType.SyntaxClass 1, 0, 99⟩]⟩

/-! ### Generic bounds for the boundary-lowering folds -/

theorem foldl_le_init {α : Type} (f : Nat → α → Nat) (hf : ∀ e a, f e a ≤ e) :
    ∀ (l : List α) (e : Nat), List.foldl f e l ≤ e := by
  intro l
  induction l with
  | nil => intro e; exact Nat.le_refl e
  | cons a rest ih => intro e; exact Nat.le_trans (ih (f e a)) (hf e a)

theorem lt_foldl_of_mem {α : Type} (f : Nat → α → Nat) (c : Nat) :
    ∀ (l : List α), (∀ a ∈ l, ∀ e, c < e → c < f e a) →
      ∀ e, c < e → c < List.foldl f e l := by
  intro l
  induction l with
  | nil => intro _ e he; exact he
  | cons a rest ih =>
    intro h e he
    exact ih (fun x hx e' he' => h x (List.mem_cons_of_mem a hx) e' he') (f e a)
      (h a (List.mem_cons_self a rest) e he)

theorem mem_activeAt {s : AnnotatedString} {c : Nat} {a : Annotation} :
    a ∈ activeAt s c ↔ a ∈ s.annotations ∧ a.start ≤ c ∧ c < a.endIdx := by
  simp [activeAt, List.mem_filter, and_assoc]

theorem noActiveStartsFold_le (c e0 : Nat) (l : List Annotation) :
    noActiveStartsFold c e0 l ≤ e0 := by
  unfold noActiveStartsFold
  refine foldl_le_init _ (fun e a => ?_) l e0
  split
  · next hcond =>
    simp only [Bool.and_eq_true, decide_eq_true_eq] at hcond
    exact Nat.le_of_lt hcond.2
  · exact Nat.le_refl e

theorem lt_noActiveStartsFold (c e0 : Nat) (l : List Annotation) (h : c < e0) :
    c < noActiveStartsFold c e0 l := by
  unfold noActiveStartsFold
  refine lt_foldl_of_mem _ c l (fun a _ e he => ?_) e0 h
  split
  · next hcond =>
    simp only [Bool.and_eq_true, decide_eq_true_eq] at hcond
    exact hcond.1
  · exact he

theorem nonSelectStartsFold_le (c e0 : Nat) (l : List Annotation) :
    nonSelectStartsFold c e0 l ≤ e0 := by
  unfold nonSelectStartsFold
  refine foldl_le_init _ (fun e a => ?_) l e0
  split
  · next hcond =>
    simp only [Bool.and_eq_true, decide_eq_true_eq] at hcond
    exact Nat.le_of_lt hcond.2
  · exact Nat.le_refl e

theorem lt_nonSelectStartsFold (c e0 : Nat) (l : List Annotation) (h : c < e0) :
    c < nonSelectStartsFold c e0 l := by
  unfold nonSelectStartsFold
  refine lt_foldl_of_mem _ c l (fun a _ e he => ?_) e0 h
  split
  · next hcond =>
    simp only [Bool.and_eq_true, decide_eq_true_eq] at hcond
    exact hcond.1.2
  · exact he

theorem selectEndsFold_le (e0 : Nat) (l : List Annotation) :
    selectEndsFold e0 l ≤ e0 := by
  unfold selectEndsFold
  refine foldl_le_init _ (fun e a => ?_) l e0
  split
  · exact Nat.le_refl e
  · exact Nat.min_le_left _ _

theorem lt_selectEndsFold (c e0 : Nat) (l : List Annotation)
    (hmem : ∀ a ∈ l, c < a.endIdx) (h : c < e0) : c < selectEndsFold e0 l := by
  unfold selectEndsFold
  refine lt_foldl_of_mem _ c l (fun a ha e he => ?_) e0 h
  split
  · exact he
  · exact Nat.lt_min.mpr ⟨he, hmem a ha⟩

theorem activeEndsFold_le (e0 : Nat) (l : List Annotation) :
    activeEndsFold e0 l ≤ e0 := by
  unfold activeEndsFold
  exact foldl_le_init _ (fun e a => Nat.min_le_left e a.endIdx) l e0

theorem lt_activeEndsFold (c e0 : Nat) (l : List Annotation)
    (hmem : ∀ a ∈ l, c < a.endIdx) (h : c < e0) : c < activeEndsFold e0 l := by
  unfold activeEndsFold
  exact lt_foldl_of_mem _ c l (fun a ha e he => Nat.lt_min.mpr ⟨he, hmem a ha⟩) e0 h

theorem firstSelectStartIn_le (c : Nat) (l : List Annotation) (e : Nat) :
    firstSelectStartIn c l e ≤ e := by
  induction l with
  | nil => exact Nat.le_refl e
  | cons a rest ih =>
    unfold firstSelectStartIn
    split
    · next hcond =>
      simp only [Bool.and_eq_true, decide_eq_true_eq] at hcond
      exact Nat.le_of_lt hcond.2
    · exact ih

theorem lt_firstSelectStartIn (c : Nat) (l : List Annotation) (e : Nat) (h : c < e) :
    c < firstSelectStartIn c l e := by
  induction l with
  | nil => exact h
  | cons a rest ih =>
    unfold firstSelectStartIn
    split
    · next hcond =>
      simp only [Bool.and_eq_true, decide_eq_true_eq] at hcond
      exact hcond.1.2
    · exact ih

/-! ### Characterization of the Select-branch folds (for claim C2) -/

theorem selectEndsFold_le_mem (e0 : Nat) (l : List Annotation) :
    ∀ a ∈ l, isSelect a.annotation_type = false → selectEndsFold e0 l ≤ a.endIdx := by
  induction l generalizing e0 with
  | nil => intro a ha; exact absurd ha (List.not_mem_nil a)
  | cons x rest ih =>
    intro a ha hsel
    rcases List.mem_cons.mp ha with rfl | hmem
    · have hstep : (if isSelect a.annotation_type then e0 else min e0 a.endIdx) ≤ a.endIdx := by
        rw [hsel]
        simp only [Bool.false_eq_true, if_false]
        exact Nat.min_le_right _ _
      calc selectEndsFold e0 (a :: rest)
          ≤ (if isSelect a.annotation_type then e0 else min e0 a.endIdx) :=
            selectEndsFold_le _ rest
        _ ≤ a.endIdx := hstep
    · exact ih _ a hmem hsel

theorem selectEndsFold_mem_or (e0 : Nat) (l : List Annotation) :
    selectEndsFold e0 l = e0 ∨
      ∃ a ∈ l, isSelect a.annotation_type = false ∧ selectEndsFold e0 l = a.endIdx := by
  induction l generalizing e0 with
  | nil => exact Or.inl rfl
  | cons x rest ih =>
    have hstep : selectEndsFold e0 (x :: rest) =
        selectEndsFold (if isSelect x.annotation_type then e0 else min e0 x.endIdx) rest := rfl
    rw [hstep]
    by_cases hx : isSelect x.annotation_type
    · rw [if_pos hx]
      rcases ih e0 with h | ⟨a, ha, hs, hv⟩
      · exact Or.inl h
      · exact Or.inr ⟨a, List.mem_cons_of_mem x ha, hs, hv⟩
    · rw [if_neg hx]
      rcases ih (min e0 x.endIdx) with h | ⟨a, ha, hs, hv⟩
      · rcases Nat.le_total e0 x.endIdx with hle | hle
        · exact Or.inl (h.trans (Nat.min_eq_left hle))
        · exact Or.inr ⟨x, List.mem_cons_self x rest,
            Bool.eq_false_iff.mpr hx, h.trans (Nat.min_eq_right hle)⟩
      · exact Or.inr ⟨a, List.mem_cons_of_mem x ha, hs, hv⟩

theorem nonSelectStartsFold_le_start (c e0 : Nat) (l : List Annotation) :
    ∀ a ∈ l, isSelect a.annotation_type = false → c < a.start →
      nonSelectStartsFold c e0 l ≤ a.start := by
  induction l generalizing e0 with
  | nil => intro a ha; exact absurd ha (List.not_mem_nil a)
  | cons x rest ih =>
    intro a ha hsel hlt
    rcases List.mem_cons.mp ha with rfl | hmem
    · show nonSelectStartsFold c
        (if !isSelect a.annotation_type && decide (c < a.start) && decide (a.start < e0)
          then a.start else e0) rest ≤ a.start
      by_cases hlt2 : a.start < e0
      · rw [if_pos (by simp [hsel, hlt, hlt2])]
        exact nonSelectStartsFold_le c a.start rest
      · have hstep : (if !isSelect a.annotation_type && decide (c < a.start) &&
            decide (a.start < e0) then a.start else e0) = e0 := by
          rw [if_neg (by simp [hlt2])]
        rw [hstep]
        exact (nonSelectStartsFold_le c e0 rest).trans (Nat.le_of_not_lt hlt2)
    · exact ih _ a hmem hsel hlt

theorem nonSelectStartsFold_mem_or (c e0 : Nat) (l : List Annotation) :
    nonSelectStartsFold c e0 l = e0 ∨
      ∃ a ∈ l, isSelect a.annotation_type = false ∧ c < a.start ∧
        nonSelectStartsFold c e0 l = a.start := by
  induction l generalizing e0 with
  | nil => exact Or.inl rfl
  | cons x rest ih =>
    have hstep : nonSelectStartsFold c e0 (x :: rest) =
        nonSelectStartsFold c
          (if !isSelect x.annotation_type && decide (c < x.start) && decide (x.start < e0)
            then x.start else e0) rest := rfl
    rw [hstep]
    by_cases hcond : (!isSelect x.annotation_type && decide (c < x.start) &&
        decide (x.start < e0)) = true
    · rw [if_pos hcond]
      simp only [Bool.and_eq_true, Bool.not_eq_true', decide_eq_true_eq] at hcond
      rcases ih x.start with h | ⟨a, ha, hs, hc', hv⟩
      · exact Or.inr ⟨x, List.mem_cons_self x rest, hcond.1.1, hcond.1.2, h⟩
      · exact Or.inr ⟨a, List.mem_cons_of_mem x ha, hs, hc', hv⟩
    · rw [if_neg hcond]
      rcases ih e0 with h | ⟨a, ha, hs, hc', hv⟩
      · exact Or.inl h
      · exact Or.inr ⟨a, List.mem_cons_of_mem x ha, hs, hc', hv⟩

/-- Core correctness of one iterator step: below the end of the text the
iterator emits the substring `[c, b)` for some strictly larger boundary
`b ≤ length`, tagged with the types of exactly the annotations active
at `c`, in registration order. -/
theorem nextPart_spec (s : AnnotatedString) (c : Nat) (hc : c < s.string.length) :
    ∃ p b, nextPart s c = some (p, b) ∧
      p.string = (s.string.drop c).take (b - c) ∧
      p.annotation_types = (activeAt s c).map (·.annotation_type) ∧
      c < b ∧ b ≤ s.string.length := by
  have hlen : ¬ s.string.length ≤ c := Nat.not_le.mpr hc
  have hactive : ∀ a ∈ activeAt s c, c < a.endIdx := fun a ha =>
    (mem_activeAt.mp ha).2.2
  unfold nextPart
  rw [if_neg hlen]
  split
  · next hemp =>
    refine ⟨_, _, rfl, rfl, ?_, ?_, ?_⟩
    · rw [List.isEmpty_iff.mp hemp]; rfl
    · exact lt_noActiveStartsFold c _ s.annotations hc
    · exact noActiveStartsFold_le c _ s.annotations
  · next hemp =>
    split
    · next sel hfind =>
      have hsel : sel ∈ activeAt s c := List.mem_of_find?_eq_some hfind
      have hsel_end : c < sel.endIdx := hactive sel hsel
      have h0 : c < min sel.endIdx s.string.length := Nat.lt_min.mpr ⟨hsel_end, hc⟩
      have h1 : c < selectEndsFold (min sel.endIdx s.string.length) (activeAt s c) :=
        lt_selectEndsFold c _ _ hactive h0
      refine ⟨_, _, rfl, rfl, rfl, ?_, ?_⟩
      · exact lt_nonSelectStartsFold c _ s.annotations h1
      · calc nonSelectStartsFold c _ s.annotations ≤ _ :=
              nonSelectStartsFold_le c _ s.annotations
          _ ≤ min sel.endIdx s.string.length := selectEndsFold_le _ _
          _ ≤ s.string.length := Nat.min_le_right _ _
    · next hfind =>
      have h1 : c < activeEndsFold s.string.length (activeAt s c) :=
        lt_activeEndsFold c _ _ hactive hc
      refine ⟨_, _, rfl, rfl, rfl, ?_, ?_⟩
      · exact lt_firstSelectStartIn c s.annotations _ h1
      · calc firstSelectStartIn c s.annotations _ ≤ _ :=
              firstSelectStartIn_le c s.annotations _
          _ ≤ s.string.length := activeEndsFold_le _ _

theorem nextPart_none (s : AnnotatedString) (c : Nat) (hc : s.string.length ≤ c) :
    nextPart s c = none := by
  unfold nextPart
  rw [if_pos hc]

/-! ### Iterating to exhaustion -/

theorem partsFrom_succ (s : AnnotatedString) (fuel c : Nat) :
    partsFrom s (fuel + 1) c =
      match nextPart s c with
      | none => []
      | some (p, b) => p :: partsFrom s fuel b := rfl

theorem partsFrom_join (s : AnnotatedString) :
    ∀ (fuel c : Nat), s.string.length - c ≤ fuel →
      ((partsFrom s fuel c).map (·.string)).flatten = s.string.drop c := by
  intro fuel
  induction fuel with
  | zero =>
    intro c hc
    have : s.string.length ≤ c := Nat.le_of_sub_eq_zero (Nat.le_zero.mp hc)
    rw [List.drop_eq_nil_of_le this]
    rfl
  | succ fuel ih =>
    intro c hc
    rw [partsFrom_succ]
    by_cases hlt : c < s.string.length
    · obtain ⟨p, b, hnp, hstr, _, hcb, hble⟩ := nextPart_spec s c hlt
      rw [hnp]
      have hfuel : s.string.length - b ≤ fuel := by omega
      have hjoin := ih b hfuel
      dsimp only
      rw [List.map_cons, List.flatten_cons, hjoin, hstr]
      have hdrop : s.string.drop b = (s.string.drop c).drop (b - c) := by
        rw [List.drop_drop, Nat.add_sub_cancel' (Nat.le_of_lt hcb)]
      rw [hdrop, List.take_append_drop]
    · have hle : s.string.length ≤ c := Nat.le_of_not_lt hlt
      rw [nextPart_none s c hle, List.drop_eq_nil_of_le hle]
      rfl

theorem partsFrom_length (s : AnnotatedString) :
    ∀ (fuel c : Nat), (partsFrom s fuel c).length ≤ fuel := by
  intro fuel
  induction fuel with
  | zero => intro c; exact Nat.le_refl 0
  | succ fuel ih =>
    intro c
    rw [partsFrom_succ]
    cases hnp : nextPart s c with
    | none => exact Nat.le_add_left 0 _
    | some pb =>
      cases pb with
      | mk p b => exact Nat.succ_le_succ (ih b)


/-- Sanity check against the worked merge example of the specification. -/
theorem merge_hello_world :
    parts ⟨"Hello World".toList,
      [⟨AnnotationType.SyntaxClass 0, 0, 5⟩, ⟨AnnotationType.Select, 2, 8⟩]⟩ =
      [⟨"He".toList, [AnnotationType.SyntaxClass 0]⟩,
       ⟨"llo".toList, [AnnotationType.SyntaxClass 0, AnnotationType.Select]⟩,
       ⟨" Wo".toList, [AnnotationType.Select]⟩,
       ⟨"rld".toList, []⟩] := by decide

/-! ### Buffer dirty-flag lemmas -/

theorem insert_char_cases (b : Buffer) (ch : Char) (pos : Location) :
    Buffer.insert_char b ch pos = b ∨ (Buffer.insert_char b ch pos).dirty = true := by
  unfold Buffer.insert_char
  split
  · exact Or.inr rfl
  · split
    · exact Or.inr rfl
    · exact Or.inl rfl

theorem insert_newline_cases (b : Buffer) (pos : Location) :
    Buffer.insert_newline b pos = b ∨ (Buffer.insert_newline b pos).dirty = true := by
  unfold Buffer.insert_newline
  split
  · exact Or.inr rfl
  · split
    · exact Or.inr rfl
    · exact Or.inl rfl

theorem delete_cases (b : Buffer) (pos : Location) :
    Buffer.delete b pos = b ∨ (Buffer.delete b pos).dirty = true := by
  unfold Buffer.delete
  split
  · exact Or.inl rfl
  · split
    · split
      · exact Or.inr rfl
      · exact Or.inl rfl
    · split
      · exact Or.inr rfl
      · exact Or.inl rfl

theorem insert_char_dirty_mono (b : Buffer) (ch : Char) (pos : Location)
    (h : b.dirty = true) : (Buffer.insert_char b ch pos).dirty = true := by
  rcases insert_char_cases b ch pos with heq | hd
  · rw [heq]; exact h
  · exact hd

theorem insert_newline_dirty_mono (b : Buffer) (pos : Location)
    (h : b.dirty = true) : (Buffer.insert_newline b pos).dirty = true := by
  rcases insert_newline_cases b pos with heq | hd
  · rw [heq]; exact h
  · exact hd

theorem delete_dirty_mono (b : Buffer) (pos : Location)
    (h : b.dirty = true) : (Buffer.delete b pos).dirty = true := by
  rcases delete_cases b pos with heq | hd
  · rw [heq]; exact h
  · exact hd

theorem deleteN_dirty_mono (pos : Location) :
    ∀ (n : Nat) (b : Buffer), b.dirty = true → (Buffer.deleteN b pos n).dirty = true := by
  intro n
  induction n with
  | zero => intro b h; exact h
  | succ n ih => intro b h; exact ih (b.delete pos) (delete_dirty_mono b pos h)

theorem deleteN_cases (pos : Location) :
    ∀ (n : Nat) (b : Buffer),
      Buffer.deleteN b pos n = b ∨ (Buffer.deleteN b pos n).dirty = true := by
  intro n
  induction n with
  | zero => intro b; exact Or.inl rfl
  | succ n ih =>
    intro b
    rcases delete_cases b pos with heq | hd
    · have hstep : Buffer.deleteN b pos (n + 1) = Buffer.deleteN (b.delete pos) pos n := rfl
      rw [hstep, heq]
      exact ih b
    · exact Or.inr (deleteN_dirty_mono pos n (b.delete pos) hd)

theorem delete_range_eq_deleteN (b : Buffer) (r : SelectRange) (b' : Buffer)
    (h : Buffer.delete_range b r = some b') :
    ∃ pos n, b' = Buffer.deleteN b pos n := by
  simp only [Buffer.delete_range] at h
  repeat' split at h
  all_goals
    first
      | exact Option.noConfusion h
      | exact ⟨_, _, (Option.some.inj h).symm⟩

/-! ### Line search lemmas -/

theorem Line.search_forward_none_mono (l : Line) (q : List Char)
    (h : Line.search_forward l q 0 = none) (g : Nat) :
    Line.search_forward l q g = none := by
  unfold Line.search_forward at h ⊢
  rw [List.find?_eq_none] at h ⊢
  intro i hi
  have := h i hi
  simp only [Bool.and_eq_true, decide_eq_true_eq, not_and] at this ⊢
  intro _
  exact this (Nat.zero_le i)

theorem searchFwdAux_none (lines : List Line) (q : List Char) (fro : Location)
    (hnone : ∀ line ∈ lines, Line.search_forward line q 0 = none) :
    ∀ (rem i : Nat), searchFwdAux lines q fro rem i = none := by
  intro rem
  induction rem with
  | zero => intro i; rfl
  | succ rem ih =>
    intro i
    unfold searchFwdAux
    cases hget : cycleGet lines (fro.line_idx + i) with
    | none => rfl
    | some line =>
      have hmem : line ∈ lines := by
        unfold cycleGet at hget
        split at hget
        · exact Option.noConfusion hget
        · exact List.get?_mem hget
      have h0 : Line.search_forward line q 0 = none := hnone line hmem
      dsimp only
      rw [Line.search_forward_none_mono line q h0]
      exact ih (i + 1)

/-! ### Claim theorems -/

/-- C3: concatenating, in order, the substrings of all parts produced by
iterating the merge to exhaustion yields exactly the original string:
consecutive parts cover contiguous, non-overlapping offset ranges from 0
to the length of the text, with no gaps. -/
theorem c3_parts_concat (s : AnnotatedString) :
    ((parts s).map (·.string)).flatten = s.string := by
  unfold parts
  have h := partsFrom_join s s.string.length 0 (by omega)
  rw [List.drop_zero] at h
  exact h

/-- C9: while the cursor is strictly before the end of the text, `next`
returns a part whose boundary is strictly greater than the cursor and at
most the text length — even for annotations violating `start < end` or
extending past the text — so the iterator makes strict forward progress
and yields only finitely many parts (at most one per character). -/
theorem c9_strict_progress (s : AnnotatedString) :
    (∀ c, c < s.string.length →
      ∃ p b, nextPart s c = some (p, b) ∧ c < b ∧ b ≤ s.string.length) ∧
    (parts s).length ≤ s.string.length := by
  constructor
  · intro c hc
    obtain ⟨p, b, hnp, _, _, hcb, hble⟩ := nextPart_spec s c hc
    exact ⟨p, b, hnp, hcb, hble⟩
  · exact partsFrom_length s s.string.length 0

/-- Witness for C9 at a concrete input whose annotations violate the
`start < end` invariant and extend past the text. -/
theorem c9_witness :
    0 < exDeg.string.length ∧
      ∃ p b, nextPart exDeg 0 = some (p, b) ∧ 0 < b ∧ b ≤ exDeg.string.length :=
  ⟨by decide, (c9_strict_progress exDeg).1 0 (by decide)⟩

/-- C1 counterexample: with annotations `SyntaxClass 0 = [0,10)` and
`SyntaxClass 1 = [3,5)` the first emitted part spans the whole text and is
tagged `[SyntaxClass 0]`, yet at offset 3 — inside the part — the active
annotation type set also contains `SyntaxClass 1`: the active set is not
constant over the emitted part, refuting the claim. -/
theorem c1_counterexample :
    nextPart exC1 0 = some (⟨exC1.string, [AnnotationType.SyntaxClass 0]⟩, 10) ∧
      (activeAt exC1 3).map (·.annotation_type) ≠ [AnnotationType.SyntaxClass 0] := by
  decide

/-- C1 (amended): every part emitted with the cursor strictly before the
end of the text spans `[c, b)` for some `c < b ≤ length` and carries
exactly the types of the annotations active at its starting offset `c`,
in registration order (the active set need not stay constant inside the
part); once the cursor reaches the end of the text, `next` produces no
further parts. -/
theorem c1_parts_start_types (s : AnnotatedString) (c : Nat) :
    (s.string.length ≤ c → nextPart s c = none) ∧
    (∀ p b, nextPart s c = some (p, b) →
      p.annotation_types = (activeAt s c).map (·.annotation_type) ∧
      p.string = (s.string.drop c).take (b - c) ∧ c < b ∧ b ≤ s.string.length) := by
  constructor
  · exact nextPart_none s c
  · intro p b hnp
    by_cases hc : c < s.string.length
    · obtain ⟨p', b', hnp', hstr, htypes, hcb, hble⟩ := nextPart_spec s c hc
      rw [hnp] at hnp'
      simp only [Option.some.injEq, Prod.mk.injEq] at hnp'
      obtain ⟨hp, hb⟩ := hnp'
      subst hp
      subst hb
      exact ⟨htypes, hstr, hcb, hble⟩
    · rw [nextPart_none s c (Nat.le_of_not_lt hc)] at hnp
      exact Option.noConfusion hnp

/-- Witness for C1 (amended) on a concrete fully-selected string. -/
theorem c1_witness :
    nextPart exW 0 = some (⟨"ab".toList, [AnnotationType.Select]⟩, 2) ∧
      ((⟨"ab".toList, [AnnotationType.Select]⟩ : AnnotatedStringPart).annotation_types =
          (activeAt exW 0).map (·.annotation_type) ∧
        (⟨"ab".toList, [AnnotationType.Select]⟩ : AnnotatedStringPart).string =
          (exW.string.drop 0).take (2 - 0) ∧ 0 < 2 ∧ 2 ≤ exW.string.length) :=
  ⟨by decide,
    (c1_parts_start_types exW 0).2 ⟨"ab".toList, [AnnotationType.Select]⟩ 2 (by decide)⟩

/-- C2 counterexample: with annotations `Select = [0,8)` and
`Select = [3,5)`, the active Select at cursor 0 is `[0,8)` and the code
emits boundary 8, but the claim's minimum — which includes the start of
ANY annotation, Select included, strictly inside `(0, 8)` — is 3: the
code ignores Select starts in the Select branch. -/
theorem c2_counterexample :
    (activeAt exC2 0).find? (fun a => isSelect a.annotation_type) =
        some ⟨AnnotationType.Select, 0, 8⟩ ∧
      nextPart exC2 0 = some (⟨"abcdefgh".toList, [AnnotationType.Select]⟩, 8) ∧
      claimedSelectBoundary exC2 0 ⟨AnnotationType.Select, 0, 8⟩ = 3 ∧
      (nextPart exC2 0).map Prod.snd ≠
        some (claimedSelectBoundary exC2 0 ⟨AnnotationType.Select, 0, 8⟩) := by
  decide

/-- C2 (amended): when a Select annotation is active at the cursor, the
emitted boundary is the minimum of the Select annotation's end (clamped to
the text length), the ends of the active non-Select annotations, and the
starts, strictly beyond the cursor, of the NON-Select annotations in the
whole collection — starts of other Select annotations do not bound the
span. -/
theorem c2_select_boundary (s : AnnotatedString) (c : Nat) (p : AnnotatedStringPart)
    (b : Nat) (sel : Annotation)
    (hnp : nextPart s c = some (p, b))
    (hfind : (activeAt s c).find? (fun a => isSelect a.annotation_type) = some sel) :
    b ≤ min sel.endIdx s.string.length ∧
      (∀ a ∈ activeAt s c, isSelect a.annotation_type = false → b ≤ a.endIdx) ∧
      (∀ a ∈ s.annotations, isSelect a.annotation_type = false → c < a.start →
        b ≤ a.start) ∧
      (b = min sel.endIdx s.string.length ∨
        (∃ a ∈ activeAt s c, isSelect a.annotation_type = false ∧ b = a.endIdx) ∨
        (∃ a ∈ s.annotations,
          isSelect a.annotation_type = false ∧ c < a.start ∧ b = a.start)) := by
  have hselmem : sel ∈ activeAt s c := List.mem_of_find?_eq_some hfind
  have hne : ¬ (activeAt s c).isEmpty = true := by
    intro hemp
    rw [List.isEmpty_iff.mp hemp] at hselmem
    exact List.not_mem_nil sel hselmem
  have hlen : ¬ s.string.length ≤ c := by
    intro hle
    rw [nextPart_none s c hle] at hnp
    exact Option.noConfusion hnp
  unfold nextPart at hnp
  rw [if_neg hlen, if_neg hne, hfind] at hnp
  dsimp only at hnp
  simp only [Option.some.injEq, Prod.mk.injEq] at hnp
  obtain ⟨-, hb⟩ := hnp
  subst hb
  refine ⟨?_, ?_, ?_, ?_⟩
  · exact (nonSelectStartsFold_le c _ s.annotations).trans (selectEndsFold_le _ _)
  · intro a ha hns
    exact (nonSelectStartsFold_le c _ s.annotations).trans
      (selectEndsFold_le_mem _ (activeAt s c) a ha hns)
  · intro a ha hns hca
    exact nonSelectStartsFold_le_start c _ s.annotations a ha hns hca
  · rcases nonSelectStartsFold_mem_or c _ s.annotations with h1 | ⟨a, ha, hns, hca, hv⟩
    · rcases selectEndsFold_mem_or (min sel.endIdx s.string.length) (activeAt s c) with
        h2 | ⟨a, ha, hns, hv⟩
      · exact Or.inl (h1.trans h2)
      · exact Or.inr (Or.inl ⟨a, ha, hns, h1.trans hv⟩)
    · exact Or.inr (Or.inr ⟨a, ha, hns, hca, hv⟩)

/-- Witness for C2 (amended) on a concrete fully-selected string. -/
theorem c2_witness :
    nextPart exW 0 = some (⟨"ab".toList, [AnnotationType.Select]⟩, 2) ∧
      ∀ a ∈ exW.annotations, isSelect a.annotation_type = false → 0 < a.start →
        2 ≤ a.start :=
  ⟨by decide,
    (c2_select_boundary exW 0 ⟨"ab".toList, [AnnotationType.Select]⟩ 2
      ⟨AnnotationType.Select, 0, 2⟩ (by decide) (by decide)).2.2.1⟩

/-- C4 counterexample: for the degenerate SelectRange whose two Locations
are both (grapheme 1, line 0) — `a` equals `b` — the highlighter records
the annotation `[1, 1)` on line 0, violating `start < end`. -/
theorem c4_counterexample :
    ∃ a ∈ highlight_selected_words (⟨1, 0⟩, ⟨1, 0⟩) 0 (Line.ofString "ab".toList),
      ¬ a.start < a.endIdx := by
  decide

/-- C4 (amended): the highlighter normalizes only by line index (swapping
exactly when `a.line_idx > b.line_idx`). Provided the normalized pair is
ordered within a shared line and its start column does not exceed the line
length when the selection continues past this line, every recorded
annotation satisfies `start ≤ end` — equality is possible (e.g. for an
empty selection), so the strict invariant `start < end` does not hold. -/
theorem c4_select_annotation_bounds (r : SelectRange) (idx : Nat) (line : Line)
    (h1 : (normalizedStart r).line_idx = (normalizedEnd r).line_idx →
      (normalizedStart r).grapheme_idx ≤ (normalizedEnd r).grapheme_idx)
    (h2 : idx = (normalizedStart r).line_idx → idx < (normalizedEnd r).line_idx →
      (normalizedStart r).grapheme_idx ≤ line.grapheme_count) :
    ∀ a ∈ highlight_selected_words r idx line, a.start ≤ a.endIdx := by
  intro a ha
  simp only [highlight_selected_words, hswBody] at ha
  split at ha
  · next hin =>
    rw [List.mem_singleton] at ha
    subst ha
    simp only
    by_cases hend : idx < (normalizedEnd r).line_idx
    · rw [if_pos hend]
      by_cases hstart : (normalizedStart r).line_idx < idx
      · rw [if_pos hstart]
        exact Nat.zero_le _
      · rw [if_neg hstart]
        have heq : idx = (normalizedStart r).line_idx := by omega
        exact h2 heq hend
    · rw [if_neg hend]
      by_cases hstart : (normalizedStart r).line_idx < idx
      · rw [if_pos hstart]
        exact Nat.zero_le _
      · rw [if_neg hstart]
        have heq : (normalizedStart r).line_idx = (normalizedEnd r).line_idx := by omega
        exact h1 heq
  · exact absurd ha (List.not_mem_nil a)

/-- Witness for C4 (amended): an in-order same-line selection over `"abc"`. -/
theorem c4_witness :
    ((normalizedStart ((⟨0, 0⟩ : Location), (⟨2, 0⟩ : Location))).line_idx =
        (normalizedEnd ((⟨0, 0⟩ : Location), (⟨2, 0⟩ : Location))).line_idx →
      (normalizedStart ((⟨0, 0⟩ : Location), (⟨2, 0⟩ : Location))).grapheme_idx ≤
        (normalizedEnd ((⟨0, 0⟩ : Location), (⟨2, 0⟩ : Location))).grapheme_idx) ∧
      ∀ a ∈ highlight_selected_words (⟨0, 0⟩, ⟨2, 0⟩) 0 (Line.ofString "abc".toList),
        a.start ≤ a.endIdx :=
  ⟨by decide,
    c4_select_annotation_bounds (⟨0, 0⟩, ⟨2, 0⟩) 0 (Line.ofString "abc".toList)
      (by decide) (by decide)⟩

/-- C5 counterexample: saving a dirty pathless buffer in a release build
returns success but does NOT leave the buffer state unchanged — the dirty
flag is cleared even though nothing was written. -/
theorem c5_counterexample :
    exBufNoPath.file_info.path = none ∧ exBufNoPath.dirty = true ∧
      (Buffer.save true exBufNoPath).2 = true ∧
      (Buffer.save true exBufNoPath).1 ≠ exBufNoPath := by
  decide

/-- C5 (amended): in a release build, `save` on a pathless buffer returns
without error and leaves the lines and file metadata unchanged, but it
always resets the dirty flag to `false` rather than leaving it intact. -/
theorem c5_save_no_path (ioOk : Bool) (b : Buffer) (h : b.file_info.path = none) :
    (Buffer.save ioOk b).1.lines = b.lines ∧
      (Buffer.save ioOk b).1.file_info = b.file_info ∧
      (Buffer.save ioOk b).1.dirty = false ∧
      (Buffer.save ioOk b).2 = true := by
  unfold Buffer.save Buffer.save_to_file
  rw [h]
  exact ⟨rfl, rfl, rfl, rfl⟩

/-- Witness for C5 (amended) on a concrete dirty pathless buffer. -/
theorem c5_witness :
    exBufNoPath.file_info.path = none ∧
      ((Buffer.save true exBufNoPath).1.lines = exBufNoPath.lines ∧
        (Buffer.save true exBufNoPath).1.file_info = exBufNoPath.file_info ∧
        (Buffer.save true exBufNoPath).1.dirty = false ∧
        (Buffer.save true exBufNoPath).2 = true) :=
  ⟨by decide, c5_save_no_path true exBufNoPath (by decide)⟩

/-- C6: the dirty flag follows the stated state machine: every edit
operation that changes the line content sets `dirty`, no edit operation
ever clears it, and `dirty` returns to `false` only through a `save` or
`save_as` call that succeeds (a failed save leaves the buffer unchanged). -/
theorem c6_dirty_state_machine :
    (∀ (b : Buffer) (ch : Char) (pos : Location),
      ((Buffer.insert_char b ch pos).lines ≠ b.lines →
        (Buffer.insert_char b ch pos).dirty = true) ∧
      (b.dirty = true → (Buffer.insert_char b ch pos).dirty = true)) ∧
    (∀ (b : Buffer) (pos : Location),
      ((Buffer.insert_newline b pos).lines ≠ b.lines →
        (Buffer.insert_newline b pos).dirty = true) ∧
      (b.dirty = true → (Buffer.insert_newline b pos).dirty = true)) ∧
    (∀ (b : Buffer) (pos : Location),
      ((Buffer.delete b pos).lines ≠ b.lines → (Buffer.delete b pos).dirty = true) ∧
      (b.dirty = true → (Buffer.delete b pos).dirty = true)) ∧
    (∀ (b : Buffer) (r : SelectRange) (b' : Buffer), Buffer.delete_range b r = some b' →
      (b'.lines ≠ b.lines → b'.dirty = true) ∧ (b.dirty = true → b'.dirty = true)) ∧
    (∀ (ioOk : Bool) (b : Buffer),
      ((Buffer.save ioOk b).2 = true → (Buffer.save ioOk b).1.dirty = false) ∧
      ((Buffer.save ioOk b).2 = false → (Buffer.save ioOk b).1 = b)) ∧
    (∀ (ioOk : Bool) (b : Buffer) (name : List Char),
      ((Buffer.save_as ioOk b name).2 = true →
        (Buffer.save_as ioOk b name).1.dirty = false) ∧
      ((Buffer.save_as ioOk b name).2 = false → (Buffer.save_as ioOk b name).1 = b)) := by
  refine ⟨?_, ?_, ?_, ?_, ?_, ?_⟩
  · intro b ch pos
    constructor
    · intro hne
      rcases insert_char_cases b ch pos with heq | hd
      · rw [heq] at hne; exact absurd rfl hne
      · exact hd
    · exact insert_char_dirty_mono b ch pos
  · intro b pos
    constructor
    · intro hne
      rcases insert_newline_cases b pos with heq | hd
      · rw [heq] at hne; exact absurd rfl hne
      · exact hd
    · exact insert_newline_dirty_mono b pos
  · intro b pos
    constructor
    · intro hne
      rcases delete_cases b pos with heq | hd
      · rw [heq] at hne; exact absurd rfl hne
      · exact hd
    · exact delete_dirty_mono b pos
  · intro b r b' h
    obtain ⟨pos, n, rfl⟩ := delete_range_eq_deleteN b r b' h
    constructor
    · intro hne
      rcases deleteN_cases pos n b with heq | hd
      · rw [heq] at hne; exact absurd rfl hne
      · exact hd
    · exact deleteN_dirty_mono pos n b
  · intro ioOk b
    unfold Buffer.save
    split
    · exact ⟨fun _ => rfl, fun hf => Bool.noConfusion hf⟩
    · exact ⟨fun ht => Bool.noConfusion ht, fun _ => rfl⟩
  · intro ioOk b name
    unfold Buffer.save_as
    split
    · exact ⟨fun _ => rfl, fun hf => Bool.noConfusion hf⟩
    · exact ⟨fun ht => Bool.noConfusion ht, fun _ => rfl⟩

/-- Witness for C6: inserting a character into the empty buffer changes the
lines and indeed marks the buffer dirty. -/
theorem c6_witness :
    (Buffer.insert_char exBufEmpty 'x' ⟨0, 0⟩).lines ≠ exBufEmpty.lines ∧
      (Buffer.insert_char exBufEmpty 'x' ⟨0, 0⟩).dirty = true :=
  ⟨by decide, (c6_dirty_state_machine.1 exBufEmpty 'x' ⟨0, 0⟩).1 (by decide)⟩

/-- C7 counterexample: in a debug build, `insert_char` at a Location whose
line index strictly exceeds the buffer height trips the
`debug_assert!(at.line_idx <= self.height())` and aborts (modelled as
`none`), so the operation is not a silent no-op in every build. -/
theorem c7_counterexample :
    exBufEmpty.height < (⟨0, 1⟩ : Location).line_idx ∧
      Buffer.insert_char_checked true exBufEmpty 'a' ⟨0, 1⟩ = none := by
  decide

/-- C7 (amended): for a Location whose line index strictly exceeds the
buffer height, `delete` is a silent no-op in every build, and `insert_char`
is a silent no-op in release builds (in a debug build its `debug_assert`
aborts instead). -/
theorem c7_out_of_range_noop (b : Buffer) (ch : Char) (pos : Location)
    (h : b.height < pos.line_idx) :
    Buffer.insert_char_checked false b ch pos = some b ∧ Buffer.delete b pos = b := by
  have hget : b.lines.get? pos.line_idx = none :=
    List.get?_eq_none.mpr (Nat.le_of_lt h)
  constructor
  · unfold Buffer.insert_char_checked
    rw [if_neg (by simp)]
    unfold Buffer.insert_char
    rw [if_neg (by omega), hget]
  · unfold Buffer.delete
    rw [hget]

/-- Witness for C7 (amended) on the empty buffer. -/
theorem c7_witness :
    exBufEmpty.height < (⟨0, 5⟩ : Location).line_idx ∧
      (Buffer.insert_char_checked false exBufEmpty 'a' ⟨0, 5⟩ = some exBufEmpty ∧
        Buffer.delete exBufEmpty ⟨0, 5⟩ = exBufEmpty) :=
  ⟨by decide, c7_out_of_range_noop exBufEmpty 'a' ⟨0, 5⟩ (by decide)⟩

/-- C8: forward search treats the lines as a ring: an empty query never
matches; if no line contains the query the search returns `none`; for
lines `["abc", "def"]` searching `"abc"` from (line 1, column 0) wraps
past the end and returns (line 0, column 0); and for the single line
`"xabc"` searching `"abc"` from column 2 revisits the origin line from
column 0 and finds the match at column 1. -/
theorem c8_search_forward_ring :
    (∀ (b : Buffer) (fro : Location), Buffer.search_forward b [] fro = none) ∧
    (∀ (b : Buffer) (q : List Char) (fro : Location),
      (∀ line ∈ b.lines, Line.search_forward line q 0 = none) →
      Buffer.search_forward b q fro = none) ∧
    Buffer.search_forward exBufSearch "abc".toList ⟨0, 1⟩ = some ⟨0, 0⟩ ∧
    Buffer.search_forward exBufX "abc".toList ⟨2, 0⟩ = some ⟨1, 0⟩ := by
  refine ⟨?_, ?_, by decide, by decide⟩
  · intro b fro
    unfold Buffer.search_forward
    rw [if_pos rfl]
  · intro b q fro hnone
    unfold Buffer.search_forward
    split
    · rfl
    · exact searchFwdAux_none b.lines q fro hnone _ 0

/-- Witness for C8: a query matched nowhere returns `none`. -/
theorem c8_witness :
    (∀ line ∈ exBufSearch.lines, Line.search_forward line "zz".toList 0 = none) ∧
      Buffer.search_forward exBufSearch "zz".toList ⟨0, 0⟩ = none :=
  ⟨by decide, c8_search_forward_ring.2.1 exBufSearch "zz".toList ⟨0, 0⟩ (by decide)⟩

/-- C10: `delete_range` on a SelectRange whose two Locations are equal
computes a deletion count of zero and performs no deletions, returning the
buffer with every field — lines, file metadata, dirty flag — unchanged. -/
theorem c10_delete_range_empty (b : Buffer) (loc : Location) :
    Buffer.delete_range b (loc, loc) = some b := by
  simp [Buffer.delete_range, Buffer.deleteN]
